import Mathlib

/-!
# Verification of the sampling / aliasing / streaming core of `sniper-game`

Shallow embedding of the front-end `WaveformVisualizer` component
(`src/front-end/src/components/WaveformVisualizer.tsx`) together with the
back-end `SamplingEngine`, `ContinuousSignalModel` and `StreamingSession`
components described by the specification (the back-end sources are not part
of the front-end tree; those parts are modelled from the spec and marked as
such).

Slider-valued inputs (frequency, sampling rate, durations, noise deviation)
are modelled as rationals, which makes all structural data (sample counts,
sample times, x-coordinates, validation) computable and decidable; signal
amplitudes use real numbers and the exact sine function `Real.sin` in place
of the JavaScript floating-point `Math.sin`.
-/

namespace SniperGame

/-! ## Front-end `WaveformVisualizer` constants (source lines 62-64, 72) -/

/-- `const DURATION = 2` — seconds of time to display. -/
def DURATION : ℚ := 2

/-- `const AMPLITUDE = 80` — pixel height of wave. -/
def AMPLITUDE : ℝ := 80

/-- `const CENTER_Y = 150` — vertical center of canvas. -/
def CENTER_Y : ℝ := 150

/-- `const resolution = 1000` — oversampling rate of the reference pass. -/
def resolution : ℚ := 1000

/-! ## Front-end point generation -/

/-- One generated point: `points.push({ x, y, t })` (x in percent width,
y in device pixels, t in seconds). -/
structure RenderPoint where
  x : ℚ
  y : ℝ
  t : ℚ

/-- The y-computation shared by both passes of the component:
`CENTER_Y - AMPLITUDE * Math.sin(2 * Math.PI * frequency * t)`
(source lines 75 and 90). -/
noncomputable def signalY (f t : ℚ) : ℝ :=
  CENTER_Y - AMPLITUDE * Real.sin (2 * Real.pi * (f : ℝ) * (t : ℝ))

/-- `const totalSamples = Math.floor(DURATION * samplingRate)` (source
line 86). -/
def totalSamples (fs : ℚ) : ℕ := (⌊DURATION * fs⌋).toNat

/-- The sampled pass (source lines 84-96): for `i` in `0..totalSamples`
inclusive, `t = i / samplingRate`, `y = CENTER_Y - AMPLITUDE * sin(2π f t)`,
`x = (t / DURATION) * 100`. -/
noncomputable def sampledPoints (f fs : ℚ) : List RenderPoint :=
  (List.range (totalSamples fs + 1)).map fun (i : ℕ) =>
    let t : ℚ := (i : ℚ) / fs
    { x := t / DURATION * 100, y := signalY f t, t := t }

/-- The high-resolution reference pass (source lines 70-80): for `i` in
`0..DURATION * resolution` inclusive, `t = i / resolution`, same y and x
mapping as the sampled pass.  The memo depends only on `frequency`. -/
noncomputable def trueSignalPoints (f : ℚ) : List RenderPoint :=
  (List.range ((⌊DURATION * resolution⌋).toNat + 1)).map fun (i : ℕ) =>
    let t : ℚ := (i : ℚ) / resolution
    { x := t / DURATION * 100, y := signalY f t, t := t }

/-! ## Aliasing classification -/

/-- `const isAliasing = samplingRate < 2 * frequency` (source line 99). -/
def isAliasing (f fs : ℚ) : Bool := decide (fs < 2 * f)

/-- The spec's `AliasingStatus` enum, rendered by the component as the
`(ALIASING WARNING)` / `(OK)` label (source line 134). -/
inductive AliasingStatus where
  | OK
  | ALIASING
deriving DecidableEq

/-- The classification the component displays: `ALIASING` exactly when
`isAliasing` holds. -/
def classify (f fs : ℚ) : AliasingStatus :=
  if isAliasing f fs then .ALIASING else .OK

/-- The reconstructed/aliased overlay path (source line 208):
`sampledPoints.map((p) => `p.x p.y`).join(' L ')` — the sampled points
connected in generation order by linear segments. -/
noncomputable def reconstructedPath (f fs : ℚ) : List (ℚ × ℝ) :=
  (sampledPoints f fs).map fun p => (p.x, p.y)

/-! ## Back-end SamplingEngine and ContinuousSignalModel

The back-end physics engine (FastAPI/NumPy per the README) is not part of
the front-end source tree; the definitions below are modelled from the
spec (§3, §4.1, §4.2, §7). -/

/-- Modelled from the spec: `SignalParams` of the back-end data model
(§3) — frequency f, amplitude A, phase φ, offset V.  The missing code is
the back-end signal-configuration layer. -/
structure SignalParams where
  f : ℚ
  A : ℝ
  φ : ℝ
  V : ℝ

/-- Modelled from the spec: `SamplingConfig` of the back-end data model
(§3) — rate fs, windowDuration D, noiseStdDev σ.  The missing code is the
back-end sampling-configuration layer. -/
structure SamplingConfig where
  fs : ℚ
  D : ℚ
  σ : ℚ

/-- Modelled from the spec: the error taxonomy of §7 (the back-end
validation layer is the missing code). -/
inductive EngineError where
  | InvalidParameter
  | TransportFailure
  | MalformedUpdate
deriving DecidableEq

/-- Modelled from the spec: `ContinuousSignalModel.evaluate` (§4.1), the
back-end analytic waveform evaluator —
`y(t) = A * sin(2π f t + φ) + V`, pure and total for all real t. -/
noncomputable def evaluate (p : SignalParams) (t : ℝ) : ℝ :=
  p.A * Real.sin (2 * Real.pi * (p.f : ℝ) * t + p.φ) + p.V

/-- Modelled from the spec: the parameter validation of §4.2/§7 — invalid
iff `f ≤ 0`, `fs ≤ 0`, `D ≤ 0`, or `σ < 0`. -/
def invalidInputs (p : SignalParams) (cfg : SamplingConfig) : Prop :=
  p.f ≤ 0 ∨ cfg.fs ≤ 0 ∨ cfg.D ≤ 0 ∨ cfg.σ < 0

instance (p : SignalParams) (cfg : SamplingConfig) :
    Decidable (invalidInputs p cfg) := by
  unfold invalidInputs; infer_instance

/-- One discretized observation (spec §3): time t and value y. -/
structure Sample where
  t : ℚ
  y : ℝ

/-- Modelled from the spec: the sample sequence the back-end
`SamplingEngine` produces for valid inputs (§4.2) — for `i` in
`0..count-1` with `count = floor(D * fs) + 1`, `t_i = i / fs` and
`y_i = evaluate(params, t_i) + noise(σ)`; with σ = 0 no draw from the
injected noise source occurs. -/
noncomputable def samplesOf (p : SignalParams) (cfg : SamplingConfig)
    (rng : ℕ → ℝ) : List Sample :=
  (List.range ((⌊cfg.D * cfg.fs⌋).toNat + 1)).map fun (i : ℕ) =>
    let t : ℚ := (i : ℚ) / cfg.fs
    { t := t, y := evaluate p (t : ℝ) + (if cfg.σ = 0 then 0 else (cfg.σ : ℝ) * rng i) }

/-- Modelled from the spec: `SamplingEngine.sample` (§4.2) — rejects
invalid parameters with `InvalidParameter` producing no partial output,
otherwise returns the full sample sequence. -/
noncomputable def sample (p : SignalParams) (cfg : SamplingConfig)
    (rng : ℕ → ℝ) : Except EngineError (List Sample) :=
  if invalidInputs p cfg then .error .InvalidParameter
  else .ok (samplesOf p cfg rng)

/-! ## Back-end StreamingSession

The streaming session lives in the back-end (served at `/ws/scope/{id}`,
see `src/front-end/src/app/api.tsx` line 122 for the client side); its
state machine is modelled from the spec (§4.5, §3, §8). -/

/-- Modelled from the spec: lifecycle states of a StreamingSession
(§4.5) — the back-end session object is the missing code. -/
inductive SessionPhase where
  | Connecting
  | Open
  | Closing
  | Closed
  | Errored
deriving DecidableEq

/-- Modelled from the spec: the state of one StreamSession (§3) —
lifecycle state, next sequence number, and the sequence numbers attached
to the batches delivered so far by the current session. -/
structure SessionState where
  phase : SessionPhase
  nextSeq : ℕ
  delivered : List ℕ

/-- Events affecting a session: the §4.5 transitions, batch delivery, and
reconnection (destroy-and-recreate, §3). -/
inductive SessionEvent where
  | handshake
  | sendBatch
  | closeRequest
  | transportFailure
  | finishClose
  | reconnect

/-- Modelled from the spec: the StreamingSession state machine (§4.5) —
`Connecting→Open` on handshake success; per batch sent while `Open`,
attach the current sequence number and increment it; `Open→Closing` on
explicit close, `Open→Errored` on transport failure, `Closing→Closed` and
`Errored→Closed` terminal; a reconnect creates a fresh session with an
independent sequence starting at 0. -/
def step (s : SessionState) : SessionEvent → SessionState
  | .handshake => if s.phase = .Connecting then { s with phase := .Open } else s
  | .sendBatch =>
      if s.phase = .Open then
        { s with nextSeq := s.nextSeq + 1, delivered := s.delivered ++ [s.nextSeq] }
      else s
  | .closeRequest => if s.phase = .Open then { s with phase := .Closing } else s
  | .transportFailure => if s.phase = .Open then { s with phase := .Errored } else s
  | .finishClose =>
      if s.phase = .Closing ∨ s.phase = .Errored then { s with phase := .Closed } else s
  | .reconnect => { phase := .Connecting, nextSeq := 0, delivered := [] }

/-- A fresh session: created on connect, sequence starts at 0, nothing
delivered yet. -/
def initialSession : SessionState :=
  { phase := .Connecting, nextSeq := 0, delivered := [] }

/-- Run a session from the fresh state through a list of events. -/
def run (evs : List SessionEvent) : SessionState :=
  evs.foldl step initialSession

end SniperGame

namespace SniperGame

/-- C1: For every frequency f > 0 and sampling rate fs > 0, the aliasing
classification returns ALIASING if and only if fs < 2f; in particular the
boundary case fs = 2f is classified OK. -/
theorem classify_aliasing_iff (f fs : ℚ) (hf : 0 < f) (hfs : 0 < fs) :
    (classify f fs = .ALIASING ↔ fs < 2 * f) ∧
      (fs = 2 * f → classify f fs = .OK) := by
  constructor
  · constructor
    · intro h
      by_contra hlt
      simp [classify, isAliasing, hlt] at h
    · intro hlt
      simp [classify, isAliasing, hlt]
  · intro heq
    have : ¬ fs < 2 * f := by rw [heq]; exact lt_irrefl _
    simp [classify, isAliasing, this]

/-- Witness for C1 at the boundary f = 1, fs = 2. -/
theorem classify_aliasing_iff_witness : classify 1 2 = AliasingStatus.OK :=
  (classify_aliasing_iff 1 2 (by norm_num) (by norm_num)).2 (by norm_num)

/-- Helper: valid parameters are not rejected. -/
lemma not_invalidInputs (p : SignalParams) (cfg : SamplingConfig)
    (hf : 0 < p.f) (hfs : 0 < cfg.fs) (hD : 0 < cfg.D) (hσ : 0 ≤ cfg.σ) :
    ¬ invalidInputs p cfg := by
  unfold invalidInputs
  push_neg
  exact ⟨hf, hfs, hD, hσ⟩

/-- Helper: the common shape of the time grid `i / fs`, `i = 0, ...,
⌊D * fs⌋`: strictly increasing and contained in `[0, D]`. -/
lemma timeGrid_ordered_bounded (fs D : ℚ) (hfs : 0 < fs) (hD : 0 < D) :
    List.Chain' (· < ·)
        (((List.range ((⌊D * fs⌋).toNat + 1)).map fun (i : ℕ) => (i : ℚ) / fs)) ∧
      ∀ t ∈ (List.range ((⌊D * fs⌋).toNat + 1)).map fun (i : ℕ) => (i : ℚ) / fs,
        0 ≤ t ∧ t ≤ D := by
  constructor
  · rw [List.chain'_map, List.chain'_range_succ]
    intro m _
    exact (div_lt_div_iff_of_pos_right hfs).mpr
      (by exact_mod_cast Nat.lt_succ_self m)
  · intro t ht
    rcases List.mem_map.mp ht with ⟨i, hi, rfl⟩
    rw [List.mem_range, Nat.lt_succ_iff] at hi
    refine ⟨div_nonneg (Nat.cast_nonneg i) hfs.le, ?_⟩
    have hDfs : (0 : ℚ) ≤ D * fs := (mul_pos hD hfs).le
    have h1 : ((i : ℚ)) ≤ ((⌊D * fs⌋).toNat : ℚ) := by exact_mod_cast hi
    have h2 : (((⌊D * fs⌋).toNat : ℤ) : ℚ) ≤ D * fs := by
      rw [Int.toNat_of_nonneg (Int.floor_nonneg.mpr hDfs)]
      exact Int.floor_le _
    have h3 : ((i : ℚ)) ≤ D * fs := le_trans h1 (by exact_mod_cast h2)
    calc (i : ℚ) / fs ≤ D * fs / fs := by
          exact (div_le_div_iff_of_pos_right hfs).mpr h3
      _ = D := by field_simp

/-- C2: For every valid SamplingConfig with rate fs > 0 and window duration
D > 0, the sampling operation produces exactly floor(D * fs) + 1 samples
(engine, spec-modelled), and the front-end sampled pass produces
floor(DURATION * fs) + 1 points. -/
theorem sample_count (p : SignalParams) (cfg : SamplingConfig) (rng : ℕ → ℝ)
    (hf : 0 < p.f) (hfs : 0 < cfg.fs) (hD : 0 < cfg.D) (hσ : 0 ≤ cfg.σ) :
    sample p cfg rng = .ok (samplesOf p cfg rng) ∧
      ((samplesOf p cfg rng).length : ℤ) = ⌊cfg.D * cfg.fs⌋ + 1 ∧
      ∀ f fs : ℚ, 0 < fs →
        ((sampledPoints f fs).length : ℤ) = ⌊DURATION * fs⌋ + 1 := by
  have hval := not_invalidInputs p cfg hf hfs hD hσ
  refine ⟨?_, ?_, ?_⟩
  · unfold sample
    rw [if_neg hval]
  · have hpos : (0 : ℚ) ≤ cfg.D * cfg.fs := (mul_pos hD hfs).le
    simp [samplesOf, Int.toNat_of_nonneg (Int.floor_nonneg.mpr hpos)]
  · intro f fs hfs'
    have hpos : (0 : ℚ) ≤ DURATION * fs := by
      have : (0 : ℚ) < DURATION := by norm_num [DURATION]
      exact (mul_pos this hfs').le
    simp [sampledPoints, totalSamples,
      Int.toNat_of_nonneg (Int.floor_nonneg.mpr hpos)]

/-- Witness for C2: fs = 20, D = 2 produce 41 samples, both in the engine
and in the front-end pass. -/
theorem sample_count_witness :
    (samplesOf ⟨2, 1, 0, 0⟩ ⟨20, 2, 0⟩ (fun _ => 0)).length = 41 ∧
      (sampledPoints 2 20).length = 41 := by
  have h := sample_count ⟨2, 1, 0, 0⟩ ⟨20, 2, 0⟩ (fun _ => 0)
    (by norm_num) (by norm_num) (by norm_num) (by norm_num)
  have h1 := h.2.1
  have h2 := h.2.2 2 20 (by norm_num)
  norm_num [DURATION] at h1 h2
  exact ⟨by exact_mod_cast h1, by exact_mod_cast h2⟩

/-- C3: the i-th sample has time t_i = i / fs, the sequence is strictly
increasing in t, and every t_i lies in [0, D] — for the spec-modelled
engine and for the front-end sampled pass (D = DURATION). -/
theorem sample_times_ordered (p : SignalParams) (cfg : SamplingConfig)
    (rng : ℕ → ℝ) (hfs : 0 < cfg.fs) (hD : 0 < cfg.D) :
    ((samplesOf p cfg rng).map Sample.t =
        (List.range ((⌊cfg.D * cfg.fs⌋).toNat + 1)).map fun (i : ℕ) => (i : ℚ) / cfg.fs) ∧
      List.Chain' (· < ·) ((samplesOf p cfg rng).map Sample.t) ∧
      (∀ s ∈ samplesOf p cfg rng, 0 ≤ s.t ∧ s.t ≤ cfg.D) ∧
      ∀ f : ℚ,
        ((sampledPoints f cfg.fs).map RenderPoint.t =
          (List.range (totalSamples cfg.fs + 1)).map fun (i : ℕ) => (i : ℚ) / cfg.fs) ∧
        List.Chain' (· < ·) ((sampledPoints f cfg.fs).map RenderPoint.t) ∧
        ∀ q ∈ sampledPoints f cfg.fs, 0 ≤ q.t ∧ q.t ≤ DURATION := by
  have hDur : (0 : ℚ) < DURATION := by norm_num [DURATION]
  have hmapE : (samplesOf p cfg rng).map Sample.t =
      (List.range ((⌊cfg.D * cfg.fs⌋).toNat + 1)).map fun (i : ℕ) => (i : ℚ) / cfg.fs := by
    simp [samplesOf]
  have hmapF : ∀ f : ℚ, (sampledPoints f cfg.fs).map RenderPoint.t =
      (List.range (totalSamples cfg.fs + 1)).map fun (i : ℕ) => (i : ℚ) / cfg.fs := by
    intro f
    simp [sampledPoints]
  have hgridE := timeGrid_ordered_bounded cfg.fs cfg.D hfs hD
  have hgridF := timeGrid_ordered_bounded cfg.fs DURATION hfs hDur
  refine ⟨hmapE, ?_, ?_, fun f => ⟨hmapF f, ?_, ?_⟩⟩
  · rw [hmapE]; exact hgridE.1
  · intro s hs
    have : s.t ∈ (samplesOf p cfg rng).map Sample.t := List.mem_map_of_mem _ hs
    rw [hmapE] at this
    exact hgridE.2 _ this
  · rw [hmapF f]; exact hgridF.1
  · intro q hq
    have : q.t ∈ (sampledPoints f cfg.fs).map RenderPoint.t :=
      List.mem_map_of_mem _ hq
    rw [hmapF f] at this
    exact hgridF.2 _ this

/-- Witness for C3: Scenario B, fs = 4, D = 1 — the engine sample times
are exactly 0, 1/4, 1/2, 3/4, 1. -/
theorem sample_times_ordered_witness :
    (samplesOf ⟨5, 1, 0, 0⟩ ⟨4, 1, 0⟩ (fun _ => 0)).map Sample.t =
      [0, 1/4, 1/2, 3/4, 1] := by
  have h := (sample_times_ordered ⟨5, 1, 0, 0⟩ ⟨4, 1, 0⟩ (fun _ => 0)
    (by norm_num) (by norm_num)).1
  rw [h]
  have h4 : Int.toNat 4 = 4 := rfl
  norm_num [List.range_succ, h4]

/-- C4: inputs with f ≤ 0, fs ≤ 0, D ≤ 0, or σ < 0 are rejected with
InvalidParameter; the error carries no partial output. -/
theorem sample_rejects_invalid (p : SignalParams) (cfg : SamplingConfig)
    (rng : ℕ → ℝ)
    (h : p.f ≤ 0 ∨ cfg.fs ≤ 0 ∨ cfg.D ≤ 0 ∨ cfg.σ < 0) :
    sample p cfg rng = .error .InvalidParameter := by
  have h' : invalidInputs p cfg := h
  unfold sample
  rw [if_pos h']

/-- Witness for C4: Scenario C — SamplingConfig{fs=0, D=1} and
SignalParams{f=-1} are both rejected with InvalidParameter. -/
theorem sample_rejects_invalid_witness :
    sample ⟨1, 1, 0, 0⟩ ⟨0, 1, 0⟩ (fun _ => 0) =
        Except.error EngineError.InvalidParameter ∧
      sample ⟨-1, 1, 0, 0⟩ ⟨4, 1, 0⟩ (fun _ => 0) =
        Except.error EngineError.InvalidParameter :=
  ⟨sample_rejects_invalid _ _ _ (Or.inr (Or.inl (by norm_num))),
   sample_rejects_invalid _ _ _ (Or.inl (by norm_num))⟩

/-- C5: the continuous-signal evaluation is the total function
y(t) = A * sin(2π f t + φ) + V, and the front-end y-computation
(150 - 80 * sin(2π f t)) is exactly its instance A = 80, φ = π, V = 150. -/
theorem evaluate_signal_formula :
    (∀ (p : SignalParams) (t : ℝ),
        evaluate p t = p.A * Real.sin (2 * Real.pi * (p.f : ℝ) * t + p.φ) + p.V) ∧
      ∀ f t : ℚ,
        signalY f t = evaluate ⟨f, AMPLITUDE, Real.pi, CENTER_Y⟩ (t : ℝ) := by
  refine ⟨fun p t => rfl, fun f t => ?_⟩
  show CENTER_Y - AMPLITUDE * Real.sin (2 * Real.pi * (f : ℝ) * (t : ℝ)) =
    AMPLITUDE * Real.sin (2 * Real.pi * (f : ℝ) * (t : ℝ) + Real.pi) + CENTER_Y
  rw [Real.sin_add_pi]
  ring

/-- C6: with noise standard deviation σ = 0, the sampling operation never
consults the injected noise source — two runs with any two noise sources
return identical sequences. -/
theorem sample_deterministic_sigma_zero (p : SignalParams)
    (cfg : SamplingConfig) (rng₁ rng₂ : ℕ → ℝ) (hσ : cfg.σ = 0) :
    sample p cfg rng₁ = sample p cfg rng₂ := by
  unfold sample samplesOf
  simp [hσ]

/-- Witness for C6: identical output for the zero noise source and for an
unbounded one. -/
theorem sample_deterministic_sigma_zero_witness :
    sample ⟨2, 1, 0, 0⟩ ⟨20, 2, 0⟩ (fun _ => 0) =
      sample ⟨2, 1, 0, 0⟩ ⟨20, 2, 0⟩ (fun n => (n : ℝ)) :=
  sample_deterministic_sigma_zero _ _ _ _ rfl

/-- C7: the high-resolution reference pass has a fixed grid of
1000 points per second of window — for the fixed window D = 2 it always
produces 2001 points at times i / 1000 computed with the same signal model
`signalY`, with no dependence on the player-chosen sampling rate (the
definition takes no fs argument). -/
theorem trueSignal_fixed_resolution (f : ℚ) :
    (trueSignalPoints f).length = 2001 ∧
      ((trueSignalPoints f).map RenderPoint.t =
        (List.range 2001).map fun (i : ℕ) => (i : ℚ) / resolution) ∧
      (trueSignalPoints f).map RenderPoint.y =
        (List.range 2001).map fun (i : ℕ) => signalY f ((i : ℚ) / resolution) := by
  have hN : (⌊DURATION * resolution⌋).toNat + 1 = 2001 := by
    have h1 : ⌊DURATION * resolution⌋ = 2000 := by norm_num [DURATION, resolution]
    rw [h1]
    rfl
  refine ⟨?_, ?_, ?_⟩ <;> simp [trueSignalPoints, hN]

/-- Helper: shifting the frequency by a full multiple of the sampling rate
leaves every sampled value unchanged (sine periodicity at the grid
t = i / fs). -/
lemma signalY_alias_shift (f fs : ℚ) (i : ℕ) (hfs : fs ≠ 0) :
    signalY (f + fs) ((i : ℚ) / fs) = signalY f ((i : ℚ) / fs) := by
  unfold signalY
  have harg : 2 * Real.pi * (((f + fs : ℚ)) : ℝ) * ((((i : ℚ) / fs) : ℚ) : ℝ)
      = 2 * Real.pi * (f : ℝ) * ((((i : ℚ) / fs) : ℚ) : ℝ)
        + (i : ℝ) * (2 * Real.pi) := by
    have hfs' : ((fs : ℚ) : ℝ) ≠ 0 := by exact_mod_cast hfs
    push_cast
    field_simp
    ring
  rw [harg, Real.sin_add_nat_mul_two_pi]

/-- Helper: whole sampled pass is invariant under an fs-shift of the
frequency (an aliasing pair produces identical geometry). -/
lemma sampledPoints_alias_shift (f fs : ℚ) (hfs : fs ≠ 0) :
    sampledPoints (f + fs) fs = sampledPoints f fs := by
  unfold sampledPoints
  refine List.map_congr_left fun i _ => ?_
  simp only
  rw [signalY_alias_shift f fs i hfs]

/-- C8: the aliasing classification has no effect on the rendered
geometry — the overlay path is exactly the sampled points connected in
generation order, and it is a function of the sample sequence alone
(equal sample sequences give equal paths, whatever the statuses are); no
synthetic alias path exists in the pipeline. -/
theorem path_independent_of_status :
    (∀ f fs : ℚ,
        reconstructedPath f fs = (sampledPoints f fs).map fun p => (p.x, p.y)) ∧
      ∀ f fs f' fs' : ℚ, sampledPoints f fs = sampledPoints f' fs' →
        reconstructedPath f fs = reconstructedPath f' fs' := by
  refine ⟨fun f fs => rfl, fun f fs f' fs' h => ?_⟩
  unfold reconstructedPath
  rw [h]

/-- Witness for C8: f = 9, fs = 8 is classified ALIASING while f = 1,
fs = 8 is OK, yet the two settings produce identical sample sequences and
hence identical overlay paths. -/
theorem path_independent_of_status_witness :
    classify 9 8 = AliasingStatus.ALIASING ∧ classify 1 8 = AliasingStatus.OK ∧
      reconstructedPath 9 8 = reconstructedPath 1 8 := by
  have hshift : sampledPoints 9 8 = sampledPoints 1 8 := by
    have h := sampledPoints_alias_shift 1 8 (by norm_num)
    norm_num at h
    exact h
  refine ⟨?_, ?_, path_independent_of_status.2 9 8 1 8 hshift⟩
  · simp [classify, isAliasing]
    norm_num
  · simp [classify, isAliasing]
    norm_num

/-- Helper: a grid time i / fs with i ≤ ⌊D * fs⌋ stays below D. -/
lemma timeGrid_le (fs D : ℚ) (hfs : 0 < fs) (hD : 0 < D) (i : ℕ)
    (hi : i ≤ (⌊D * fs⌋).toNat) : (i : ℚ) / fs ≤ D := by
  have hDfs : (0 : ℚ) ≤ D * fs := (mul_pos hD hfs).le
  have h1 : ((i : ℚ)) ≤ ((⌊D * fs⌋).toNat : ℚ) := by exact_mod_cast hi
  have h2 : (((⌊D * fs⌋).toNat : ℤ) : ℚ) ≤ D * fs := by
    rw [Int.toNat_of_nonneg (Int.floor_nonneg.mpr hDfs)]
    exact Int.floor_le _
  have h3 : ((i : ℚ)) ≤ D * fs := le_trans h1 (by exact_mod_cast h2)
  calc (i : ℚ) / fs ≤ D * fs / fs := (div_le_div_iff_of_pos_right hfs).mpr h3
    _ = D := by field_simp

/-- Helper: the x-mapping sends [0, DURATION] into [0, 100]. -/
lemma xmap_bounds (t : ℚ) (h0 : 0 ≤ t) (h2 : t ≤ DURATION) :
    0 ≤ t / DURATION * 100 ∧ t / DURATION * 100 ≤ 100 := by
  unfold DURATION at h2 ⊢
  constructor <;> linarith

/-- Helper: the y-computation stays within the amplitude band
[CENTER_Y - AMPLITUDE, CENTER_Y + AMPLITUDE] = [70, 230]. -/
lemma signalY_bounds (f t : ℚ) : 70 ≤ signalY f t ∧ signalY f t ≤ 230 := by
  unfold signalY AMPLITUDE CENTER_Y
  have h1 := Real.neg_one_le_sin (2 * Real.pi * (f : ℝ) * (t : ℝ))
  have h2 := Real.sin_le_one (2 * Real.pi * (f : ℝ) * (t : ℝ))
  constructor <;> nlinarith

/-- C10: with the fixed window D = 2, amplitude constant 80 and baseline
150, every point of both passes has x ∈ [0, 100] (percent width) and
y ∈ [70, 230] (device pixels) — all generated geometry lies inside the
viewport. -/
theorem points_within_viewport (f fs : ℚ) (hf : 0 < f) (hfs : 0 < fs) :
    (∀ p ∈ trueSignalPoints f,
        0 ≤ p.x ∧ p.x ≤ 100 ∧ 70 ≤ p.y ∧ p.y ≤ 230) ∧
      ∀ p ∈ sampledPoints f fs,
        0 ≤ p.x ∧ p.x ≤ 100 ∧ 70 ≤ p.y ∧ p.y ≤ 230 := by
  have hDur : (0 : ℚ) < DURATION := by norm_num [DURATION]
  have hres : (0 : ℚ) < resolution := by norm_num [resolution]
  constructor
  · intro p hp
    rcases List.mem_map.mp hp with ⟨i, hi, rfl⟩
    rw [List.mem_range, Nat.lt_succ_iff] at hi
    have ht0 : (0 : ℚ) ≤ (i : ℚ) / resolution :=
      div_nonneg (Nat.cast_nonneg i) hres.le
    have htD : (i : ℚ) / resolution ≤ DURATION :=
      timeGrid_le resolution DURATION hres hDur i
        (by rw [mul_comm] at hi ⊢; exact hi)
    have hx := xmap_bounds _ ht0 htD
    have hy := signalY_bounds f ((i : ℚ) / resolution)
    exact ⟨hx.1, hx.2, hy.1, hy.2⟩
  · intro p hp
    rcases List.mem_map.mp hp with ⟨i, hi, rfl⟩
    rw [List.mem_range, Nat.lt_succ_iff] at hi
    have ht0 : (0 : ℚ) ≤ (i : ℚ) / fs := div_nonneg (Nat.cast_nonneg i) hfs.le
    have htD : (i : ℚ) / fs ≤ DURATION :=
      timeGrid_le fs DURATION hfs hDur i hi
    have hx := xmap_bounds _ ht0 htD
    have hy := signalY_bounds f ((i : ℚ) / fs)
    exact ⟨hx.1, hx.2, hy.1, hy.2⟩

/-- Witness for C10 at Scenario A's parameters f = 2, fs = 20. -/
theorem points_within_viewport_witness :
    (∀ p ∈ trueSignalPoints 2,
        0 ≤ p.x ∧ p.x ≤ 100 ∧ 70 ≤ p.y ∧ p.y ≤ 230) ∧
      ∀ p ∈ sampledPoints 2 20,
        0 ≤ p.x ∧ p.x ≤ 100 ∧ 70 ≤ p.y ∧ p.y ≤ 230 :=
  points_within_viewport 2 20 (by norm_num) (by norm_num)

/-- Helper: after any step, the delivered sequence numbers are exactly
0, 1, ..., nextSeq - 1, provided they were before. -/
lemma step_delivered_inv (s : SessionState) (e : SessionEvent)
    (h : s.delivered = List.range s.nextSeq) :
    (step s e).delivered = List.range (step s e).nextSeq := by
  cases e <;> simp only [step] <;>
    first
      | (split <;> simp [h, List.range_succ])
      | simp [h, List.range_succ]

/-- Helper: the delivered-equals-range invariant is preserved by any run. -/
lemma foldl_delivered_inv (evs : List SessionEvent) (s : SessionState)
    (h : s.delivered = List.range s.nextSeq) :
    (evs.foldl step s).delivered = List.range (evs.foldl step s).nextSeq := by
  induction evs generalizing s with
  | nil => exact h
  | cons e rest ih => exact ih _ (step_delivered_inv s e h)

/-- C9: in any run of a StreamSession the delivered sequence numbers are
exactly 0, 1, ..., n-1 — strictly increasing with no gaps, starting at 0 —
and a reconnect makes the rest of the run independent of everything before
it (the fresh session restarts at sequence 0). -/
theorem session_sequence_monotone (evs : List SessionEvent) :
    ((run evs).delivered = List.range (run evs).nextSeq ∧
        List.Chain' (· < ·) (run evs).delivered) ∧
      ∀ pre post : List SessionEvent,
        run (pre ++ SessionEvent.reconnect :: post) = run post := by
  have hinv : (run evs).delivered = List.range (run evs).nextSeq :=
    foldl_delivered_inv evs initialSession rfl
  refine ⟨⟨hinv, ?_⟩, ?_⟩
  · rw [hinv]
    exact (List.pairwise_lt_range _).chain'
  · intro pre post
    unfold run
    rw [List.foldl_append]
    have hfresh : step (pre.foldl step initialSession) SessionEvent.reconnect =
        initialSession := rfl
    rw [List.foldl_cons, hfresh]

end SniperGame
